import Mathlib

/-!
Verification of the irrigation planner scheduling core
(`src/main/irrigationPlanner.cpp`) against its specification.

The C++ planner works over two fixed pools of `IrrigationEvent` objects.
`IrrigationEvent` itself (the recurrence engine), the compile-time
capacity constants and the libc calendar functions are declared outside
the sources at hand, so they are modelled from the specification;
everything else is translated directly from `irrigationPlanner.cpp`.

Machine integers are modelled as `Nat`/`Int`.  The `time_t` values
handled by the planner are nonnegative epoch seconds, so they are
modelled as `Nat`, with `0` meaning "no occurrence".  The libc calendar
functions `localtime_r`/`mktime` are modelled as exact civil-calendar
conversions in a fixed-offset (DST-free) time zone; `mktime` normalizes
out-of-range fields exactly like the C function does in such a zone.
Fixed-size C arrays are modelled as lists whose length is the capacity
constant of the corresponding array.
-/

namespace IrrigationPlanner

/-! ## Civil calendar model of the libc time functions

Modelled from the spec: "All occurrence arithmetic must normalize
through a calendar representation (year/month/day/hour/min/sec) rather
than raw offsets"; the zone is modelled without DST, so the
`tm_isdst = -1` invalidation performed by the C code is accepted and
ignored by `mktime`. -/

/-- Gregorian leap-year predicate. -/
def isLeap (y : Nat) : Bool := y % 4 == 0 && (y % 100 != 0 || y % 400 == 0)

/-- Number of days of year `y`. -/
def daysInYear (y : Nat) : Nat := if isLeap y then 366 else 365

/-- Number of days of month `m` (0-based, as in `struct tm`). -/
def daysInMonth (leap : Bool) (m : Nat) : Nat :=
  if m = 1 then (if leap then 29 else 28)
  else if m = 3 ∨ m = 5 ∨ m = 8 ∨ m = 10 then 30
  else 31

/-- Day-of-year at which month `m` (0-based) begins. -/
def monthStartDoy (leap : Bool) : Nat → Nat
  | 0 => 0
  | m + 1 => monthStartDoy leap m + daysInMonth leap m

/-- Days between 1970-01-01 and the start of year `1970 + n`. -/
def ysdGo : Nat → Nat
  | 0 => 0
  | n + 1 => ysdGo n + daysInYear (1970 + n)

/-- Days between 1970-01-01 and the start of year `y` (0 for `y ≤ 1970`). -/
def yearStartDay (y : Nat) : Nat := ysdGo (y - 1970)

/-- Split a day count (days since 1970-01-01) into a year and a
0-based day-of-year, scanning years starting at `y`.  Structurally
recursive on a fuel argument (each step consumes at least 365 days, so
any fuel `> d` suffices). -/
def dayToYearAuxF : Nat → Nat → Nat → Nat × Nat
  | 0, y, d => (y, d)
  | fuel + 1, y, d =>
    if d < daysInYear y then (y, d)
    else dayToYearAuxF fuel (y + 1) (d - daysInYear y)

/-- Split a day count into a year and a 0-based day-of-year. -/
def dayToYearAux (y d : Nat) : Nat × Nat := dayToYearAuxF (d + 1) y d

/-- Split a 0-based day-of-year into a (0-based) month and a 0-based
day-of-month, scanning months starting at `m`.  Structurally recursive
on a fuel argument (each step consumes at least 28 days). -/
def doyToMonthAuxF (leap : Bool) : Nat → Nat → Nat → Nat × Nat
  | 0, m, doy => (m, doy)
  | fuel + 1, m, doy =>
    if doy < daysInMonth leap m then (m, doy)
    else doyToMonthAuxF leap fuel (m + 1) (doy - daysInMonth leap m)

/-- Split a 0-based day-of-year into a month and a 0-based day-of-month. -/
def doyToMonthAux (leap : Bool) (m doy : Nat) : Nat × Nat :=
  doyToMonthAuxF leap (doy + 1) m doy

/-- Convert a day count into `(year, 0-based month, 1-based day of month)`. -/
def dayToYMD (d : Nat) : Nat × Nat × Nat :=
  let p := dayToYearAux 1970 d
  let q := doyToMonthAux (isLeap p.1) 0 p.2
  (p.1, q.1, q.2 + 1)

/-- Model of C `struct tm` (only the fields the planner uses). -/
structure tm_t where
  tm_sec : Nat
  tm_min : Nat
  tm_hour : Nat
  tm_mday : Nat
  tm_mon : Nat
  tm_year : Nat
  tm_isdst : Int
deriving DecidableEq

/-- Model of libc `localtime_r` in a fixed-offset zone: break a `time_t`
into calendar fields (`tm_mon` 0-based, `tm_year` relative to 1900). -/
def localtime_r (t : Nat) : tm_t :=
  let d := t / 86400
  let sod := t % 86400
  let ymd := dayToYMD d
  { tm_sec := sod % 60
    tm_min := sod / 60 % 60
    tm_hour := sod / 3600
    tm_mday := ymd.2.2
    tm_mon := ymd.2.1
    tm_year := ymd.1 - 1900
    tm_isdst := 0 }

/-- Model of libc `mktime` in a fixed-offset zone: rebuild a `time_t`
from calendar fields, normalizing out-of-range `tm_sec`/`tm_min`/
`tm_hour`/`tm_mday` values and ignoring `tm_isdst` (no DST). -/
def mktime (tm : tm_t) : Nat :=
  (yearStartDay (tm.tm_year + 1900)
      + monthStartDoy (isLeap (tm.tm_year + 1900)) tm.tm_mon
      + (tm.tm_mday - 1)) * 86400
    + tm.tm_hour * 3600 + tm.tm_min * 60 + tm.tm_sec

/-! ## The recurrence engine (`IrrigationEvent`) -/

/-- Modelled from the spec: the recurrence definition of an
`IrrigationEvent` (class declared in the missing `irrigationEvent.h`) is
"either (a) a single absolute date+time, or (b) a time-of-day plus a set
of active weekdays, recurring indefinitely".  The `single` fields follow
the `setSingleEvent(hour, minute, second, day, month, year)` call order
used by `confirmNormalEvent` (1-based month, absolute year). -/
inductive RecurrenceDef where
  | single (hour minute second mday month year : Nat)
  | weekly (hour minute second : Nat) (weekdays : List Nat)
deriving DecidableEq

/-- Modelled from the spec: an `IrrigationEvent` carries a zone index,
a duration in seconds, a start-vs-stop flag, a recurrence definition,
and caches a reference time plus the next occurrence computed from it
(`0` = no valid next occurrence). -/
structure IrrigationEvent where
  zoneIdx : Nat
  durationSecs : Nat
  isStart : Bool
  recur : RecurrenceDef
  refTime : Nat
  nextOccurance : Nat
deriving DecidableEq

instance : Inhabited IrrigationEvent :=
  ⟨{ zoneIdx := 0, durationSecs := 0, isStart := false,
     recur := RecurrenceDef.single 0 0 0 1 1 1970, refTime := 0,
     nextOccurance := 0 }⟩

/-- Modelled from the spec: search (bounded by 8 days, enough to cover a
full week) for the earliest day `d ≥` the current day whose weekday is
active and whose time-of-day instant is `≥ now`.  Day 0 of the epoch
(1970-01-01) was a Thursday, i.e. C weekday 4. -/
def weeklyNextAux (weekdays : List Nat) (tod now : Nat) : Nat → Nat → Nat
  | 0, _ => 0
  | fuel + 1, d =>
    if weekdays.contains ((d + 4) % 7) ∧ now ≤ d * 86400 + tod then
      d * 86400 + tod
    else
      weeklyNextAux weekdays tod now fuel (d + 1)

/-- Modelled from the spec: `updateReferenceTime(now)` "recomputes and
caches the event's next occurrence at or after `now`": a single-shot
event yields its fixed date-time if it is `≥ now` and `0` (exhausted)
otherwise; a weekday-recurring event yields the earliest matching
date-time `≥ now`. -/
def computeNextOccurance (r : RecurrenceDef) (now : Nat) : Nat :=
  match r with
  | RecurrenceDef.single hh mm ss dd mo yy =>
    let fixed := mktime
      { tm_sec := ss, tm_min := mm, tm_hour := hh, tm_mday := dd,
        tm_mon := mo - 1, tm_year := yy - 1900, tm_isdst := 0 }
    if now ≤ fixed then fixed else 0
  | RecurrenceDef.weekly hh mm ss weekdays =>
    weeklyNextAux weekdays (hh * 3600 + mm * 60 + ss) now 8 (now / 86400)

/-- Modelled from the spec: `updateReferenceTime` caches the reference
time and the next occurrence computed from it. -/
def updateReferenceTime (e : IrrigationEvent) (now : Nat) : IrrigationEvent :=
  { e with refTime := now, nextOccurance := computeNextOccurance e.recur now }

/-- Modelled from the spec: `getNextOccurance()` returns the cached
value without recomputation. -/
def getNextOccurance (e : IrrigationEvent) : Nat := e.nextOccurance

/-- Modelled from the spec: `getReferenceTime()` returns the cached
reference time. -/
def getReferenceTime (e : IrrigationEvent) : Nat := e.refTime

/-- Modelled from the spec: "event A < event B iff A's cached next
occurrence < B's, with 0 ('none') treated as +infinity for ordering
purposes" (C++ `operator<`). -/
def eventLt (a b : IrrigationEvent) : Bool :=
  a.nextOccurance != 0 && (b.nextOccurance == 0 || a.nextOccurance < b.nextOccurance)

/-- Modelled from the spec: the data record returned by
`IrrigationEvent::getEventData` ("zone index, duration, start/stop
flag").  Events are "never partially constructed", so the accessor is
total in the model. -/
structure irrigation_event_data_t where
  zoneIdx : Nat
  durationSecs : Nat
  isStart : Bool
deriving DecidableEq

/-- Modelled from the spec: `getEventData` resolves an event to its zone
index, duration and start/stop flag. -/
def getEventData (e : IrrigationEvent) : irrigation_event_data_t :=
  { zoneIdx := e.zoneIdx, durationSecs := e.durationSecs, isStart := e.isStart }

/-- Modelled from the spec: `setSingleEvent(hour, minute, second, day,
month, year)` makes the event single-shot at the given date-time. -/
def setSingleEvent (e : IrrigationEvent) (hh mm ss dd mo yy : Nat) : IrrigationEvent :=
  { e with recur := RecurrenceDef.single hh mm ss dd mo yy }

/-- Modelled from the spec: setter for the start-vs-stop flag. -/
def setStartFlag (e : IrrigationEvent) (b : Bool) : IrrigationEvent :=
  { e with isStart := b }

/-- Modelled from the spec: setter for the duration. -/
def setDuration (e : IrrigationEvent) (d : Nat) : IrrigationEvent :=
  { e with durationSecs := d }

/-- Modelled from the spec: setter for the zone index. -/
def setZoneIndex (e : IrrigationEvent) (z : Nat) : IrrigationEvent :=
  { e with zoneIdx := z }

/-! ## Planner data model

A C event array and its parallel `bool` used-array are modelled as one
list of `IrrigationEvent × Bool` pairs; the list length is the array's
capacity constant (`irrigationPlannerNumEvents` for the start pool,
`irrigationPlannerNumStopEvents` for the stop pool). -/

/-- One pool slot: the event storage cell together with its used-flag. -/
abbrev Slot := IrrigationEvent × Bool

/-- The planner's error enumeration (`IrrigationPlanner::err_t`). -/
inductive err_t where
  | ERR_OK
  | ERR_INVALID_PARAM
  | ERR_INVALID_HANDLE
  | ERR_INVALID_ZONE_IDX
  | ERR_NO_STOP_SLOT_AVAIL
  | ERR_PARTIAL_EVENT_HANDLES
  | ERR_NO_HANDLES_FOUND
  | ERR_TIMEOUT
deriving DecidableEq

export err_t (ERR_OK ERR_INVALID_PARAM ERR_INVALID_HANDLE ERR_INVALID_ZONE_IDX
  ERR_NO_STOP_SLOT_AVAIL ERR_PARTIAL_EVENT_HANDLES ERR_NO_HANDLES_FOUND ERR_TIMEOUT)

/-- `IrrigationPlanner::event_handle_t`: a pool index (C `int`, `-1` is
the invalid sentinel) plus the start-vs-stop pool flag. -/
structure event_handle_t where
  idx : Int
  isStart : Bool
deriving DecidableEq

/-- Model of `irrigation_zone_cfg_t` (declared in the missing
`irrigationZoneCfg.h`): a name and the per-channel assignment slots. -/
structure irrigation_zone_cfg_t where
  name : String
  chEnabled : List Bool
  chNum : List Nat
  chStateStart : List Bool
  chStateStop : List Bool
deriving DecidableEq

instance : Inhabited irrigation_zone_cfg_t :=
  ⟨{ name := "", chEnabled := [], chNum := [], chStateStart := [],
     chStateStop := [] }⟩

/-! ## `getNextEventIdx` / `getNextEventTime` -/

/-- Loop body of `IrrigationPlanner::getNextEventIdx` (lines 125-149):
walks the pool, updates the reference time of every used slot, and keeps
the first strictly-smallest candidate with a non-zero occurrence.  The
running best is the pair (index, updated event), mirroring the C++
`nextIdx`/`nextEvent` pointer into the updated array; the updated pool
is returned alongside because the C++ loop mutates the events in place. -/
def getNextEventIdxAux (startTime : Nat) :
    Nat → Option (Nat × IrrigationEvent) → List Slot →
    Option (Nat × IrrigationEvent) × List Slot
  | _, best, [] => (best, [])
  | i, best, (e, u) :: rest =>
    if u then
      let e' := updateReferenceTime e startTime
      let best' :=
        match best with
        | some (bi, be) =>
          if getNextOccurance e' ≠ 0 ∧ eventLt e' be then some (i, e')
          else some (bi, be)
        | none =>
          if getNextOccurance e' ≠ 0 then some (i, e') else none
      let r := getNextEventIdxAux startTime (i + 1) best' rest
      (r.1, (e', u) :: r.2)
    else
      let r := getNextEventIdxAux startTime (i + 1) best rest
      (r.1, (e, u) :: r.2)

/-- `IrrigationPlanner::getNextEventIdx` (lines 119-152), returning the
best (index, event) candidate and the pool with reference times updated. -/
def getNextEventIdx (startTime : Nat) (pool : List Slot) :
    Option (Nat × IrrigationEvent) × List Slot :=
  getNextEventIdxAux startTime 0 none pool

/-- `IrrigationPlanner::getNextEventTime` (lines 72-109): optionally
advance the search floor by one second through a
`localtime_r`/`mktime` round-trip, scan both pools, and combine the two
per-pool winners with `operator<`.  Returns the chosen time together
with the two updated pools. -/
def getNextEventTime (startTime : Nat) (excludeStartTime : Bool)
    (events stopEvents : List Slot) : Nat × List Slot × List Slot :=
  let startTime' :=
    if excludeStartTime then
      let startTimeTm := localtime_r startTime
      mktime { startTimeTm with tm_sec := startTimeTm.tm_sec + 1 }
    else startTime
  let rs := getNextEventIdx startTime' events
  let rt := getNextEventIdx startTime' stopEvents
  let nextEventTime :=
    match rs.1, rt.1 with
    | some (_, e), some (_, f) =>
      if eventLt e f then getNextOccurance e else getNextOccurance f
    | some (_, e), none => getNextOccurance e
    | none, some (_, f) => getNextOccurance f
    | none, none => 0
  (nextEventTime, rs.2, rt.2)

/-! ## `getEventHandles` -/

/-- One scan loop of `IrrigationPlanner::getEventHandles`
(lines 176-190 for the start pool, 193-207 for the stop pool): for every
used slot whose cached occurrence equals `eventTime`, write a handle at
position `handleCnt` of `dest` if there is room, otherwise flag
`ERR_PARTIAL_EVENT_HANDLES` and break.  Returns the final count, the
updated buffer, and whether the partial flag was raised. -/
def scanPool (isStart : Bool) (eventTime : Nat) (maxElements : Nat) :
    List Slot → Nat → Nat → List event_handle_t →
    Nat × List event_handle_t × Bool
  | [], _, handleCnt, dest => (handleCnt, dest, false)
  | (e, u) :: rest, i, handleCnt, dest =>
    if u ∧ getNextOccurance e = eventTime then
      if handleCnt < maxElements then
        scanPool isStart eventTime maxElements rest (i + 1) (handleCnt + 1)
          (dest.set handleCnt { idx := (i : Int), isStart := isStart })
      else (handleCnt, dest, true)
    else scanPool isStart eventTime maxElements rest (i + 1) handleCnt dest

/-- Write `{ dest[j] with idx := -1 }` at position `j` (the C++ clear
loop only assigns the `idx` field). -/
def setIdxInvalid (dest : List event_handle_t) (j : Nat) : List event_handle_t :=
  match dest.get? j with
  | some h => dest.set j { h with idx := -1 }
  | none => dest

/-- Iteration core of the clear loop: invalidate `fuel` consecutive
entries starting at position `i`. -/
def clearFromAux : Nat → List event_handle_t → Nat → List event_handle_t
  | 0, dest, _ => dest
  | fuel + 1, dest, i => clearFromAux fuel (setIdxInvalid dest i) (i + 1)

/-- The clear loop of `getEventHandles` (lines 210-212): invalidate
`dest[i].idx` for `handleCnt ≤ i < maxElements`. -/
def clearFrom (dest : List event_handle_t) (i maxElements : Nat) : List event_handle_t :=
  clearFromAux (maxElements - i) dest i

/-- `IrrigationPlanner::getEventHandles` (lines 167-219): scan the start
pool, then the stop pool, clear the remaining buffer entries, and pick
the return code (`ERR_NO_HANDLES_FOUND` when nothing was found overrides
a pending `ERR_PARTIAL_EVENT_HANDLES`). -/
def getEventHandles (eventTime : Nat) (events stopEvents : List Slot)
    (dest : List event_handle_t) (maxElements : Nat) :
    err_t × List event_handle_t :=
  let r1 := scanPool true eventTime maxElements events 0 0 dest
  let r2 := scanPool false eventTime maxElements stopEvents 0 r1.1 r1.2.1
  let handleCnt := r2.1
  let dest' := clearFrom r2.2.1 handleCnt maxElements
  let ret :=
    if handleCnt = 0 then ERR_NO_HANDLES_FOUND
    else if r1.2.2 || r2.2.2 then ERR_PARTIAL_EVENT_HANDLES
    else ERR_OK
  (ret, dest')

/-! ## `confirmEvent` -/

/-- The event written into an allocated stop slot by
`IrrigationPlanner::confirmNormalEvent` (lines 320-360): take the start
event's cached occurrence, add its duration to `tm_sec` in calendar
space with the DST flag invalidated, normalize through
`mktime`/`localtime_r`, and store the result as a single-shot, non-start,
zero-duration event for the same zone, with the reference time inherited
from the start event.  All fields of the slot are (re)written, so the
result does not depend on the slot's previous content. -/
def mkStopEvent (e : IrrigationEvent) : IrrigationEvent :=
  let evtData := getEventData e
  let stopTime := getNextOccurance e
  let tmA := localtime_r stopTime
  let tmB := { tmA with
    tm_sec := tmA.tm_sec + evtData.durationSecs
    tm_isdst := (-1 : Int) }
  let stopTime' := mktime tmB
  let tmC := localtime_r stopTime'
  let ev := setSingleEvent default tmC.tm_hour tmC.tm_min tmC.tm_sec
    tmC.tm_mday (tmC.tm_mon + 1) (tmC.tm_year + 1900)
  let ev := setStartFlag ev false
  let ev := setDuration ev 0
  let ev := setZoneIndex ev evtData.zoneIdx
  updateReferenceTime ev (getReferenceTime e)

/-- The stop-slot allocation loop of `confirmNormalEvent`
(lines 315-371): find the first slot whose used-flag is false, mark it
used, write the derived stop event into it, and stop scanning.  Returns
whether a slot was allocated, together with the updated stop pool. -/
def allocStopSlot (e : IrrigationEvent) : List Slot → Bool × List Slot
  | [] => (false, [])
  | (se, u) :: rest =>
    if u then
      let r := allocStopSlot e rest
      (r.1, (se, u) :: r.2)
    else (true, (mkStopEvent e, true) :: rest)

/-- `IrrigationPlanner::confirmNormalEvent` (lines 310-381): allocate a
stop slot for the event at `idx` of the start pool, and — independently
of the allocation outcome — clear the slot's used-flag when the event is
a one-shot, i.e. lies beyond the reserved
`irrigationPlannerNumNormalEvents` prefix. -/
def confirmNormalEvent (irrigationPlannerNumNormalEvents : Nat) (idx : Nat)
    (events stopEvents : List Slot) : Bool × List Slot × List Slot :=
  let e := (events.getD idx default).1
  let r := allocStopSlot e stopEvents
  let events' :=
    if irrigationPlannerNumNormalEvents ≤ idx then
      events.set idx ((events.getD idx default).1, false)
    else events
  (r.1, events', r.2)

/-- `IrrigationPlanner::confirmStopEvent` (lines 388-391): clear the
used-flag of the given stop slot. -/
def confirmStopEvent (idx : Nat) (stopEvents : List Slot) : List Slot :=
  stopEvents.set idx ((stopEvents.getD idx default).1, false)

/-- `IrrigationPlanner::confirmEvent` (lines 273-300): validate the
handle (non-negative index, within the pool capacity, slot used), then
either run the normal-event confirmation (mapping an allocation failure
to `ERR_NO_STOP_SLOT_AVAIL`) or free the stop slot. -/
def confirmEvent (irrigationPlannerNumNormalEvents : Nat)
    (handle : event_handle_t) (events stopEvents : List Slot) :
    err_t × List Slot × List Slot :=
  if handle.idx < 0 then (ERR_INVALID_HANDLE, events, stopEvents)
  else
    let i := handle.idx.toNat
    if handle.isStart then
      if events.length ≤ i then (ERR_INVALID_HANDLE, events, stopEvents)
      else if (events.getD i default).2 = false then
        (ERR_INVALID_HANDLE, events, stopEvents)
      else
        let r := confirmNormalEvent irrigationPlannerNumNormalEvents i events stopEvents
        (if r.1 then ERR_OK else ERR_NO_STOP_SLOT_AVAIL, r.2)
    else
      if stopEvents.length ≤ i then (ERR_INVALID_HANDLE, events, stopEvents)
      else if (stopEvents.getD i default).2 = false then
        (ERR_INVALID_HANDLE, events, stopEvents)
      else (ERR_OK, events, confirmStopEvent i stopEvents)

/-! ## `getZoneConfig` -/

/-- `IrrigationPlanner::getZoneConfig` (lines 451-460).  Note that the
C++ bound check compares `idx` against `irrigationZoneCfgElements` (the
per-zone channel-slot capacity), not against `irrigationPlannerNumZones`
(the length of the `zones` array); both constants live in headers that
are not part of the sources, so they are parameters here.  The
out-of-bounds read `zones[idx]` that the C++ performs when the check
passes but `idx ≥ irrigationPlannerNumZones` is modelled as `none`. -/
def getZoneConfig (irrigationZoneCfgElements : Nat)
    (zones : List irrigation_zone_cfg_t) (idx : Int) :
    err_t × Option irrigation_zone_cfg_t :=
  if idx < 0 ∨ (irrigationZoneCfgElements : Int) ≤ idx then
    (ERR_INVALID_ZONE_IDX, none)
  else (ERR_OK, zones.get? idx.toNat)

/-! ## Configuration-reload path

The two FreeRTOS mutexes (`configMutex`, `hookMutex`) are modelled as
always acquired: the model is single-threaded, so the bounded-wait
timeout branches are unreachable.  The external side effects — the
`settingsMgr.copyZonesAndEvents` call and the invocation of the
registered hook — are instrumented as counters in the state. -/

/-- The fresh zone/event snapshot owned by the settings collaborator
(`SettingsManager::copyZonesAndEvents` copies `irrigationPlannerNumZones`
zones and the `irrigationPlannerNumNormalEvents` normal-event prefix). -/
structure SettingsSnapshot where
  zones : List irrigation_zone_cfg_t
  events : List Slot
deriving DecidableEq

/-- The configuration/hook part of the planner state.  `copyCalls` and
`hookCalls` instrument the external side effects. -/
structure PlannerCfgState where
  zones : List irrigation_zone_cfg_t
  events : List Slot
  configLock : Bool
  configUpdatedDuringLock : Bool
  configUpdatedHook : Option Nat
  configUpdatedHookParamPtr : Nat
  copyCalls : Nat
  hookCalls : Nat
deriving DecidableEq

/-- Model of `settingsMgr.copyZonesAndEvents(zones, events, eventsUsed)`
(line 502): the collaborator rewrites the zone array and the
normal-event prefix of the start pool with fully valid data. -/
def copyZonesAndEvents (snap : SettingsSnapshot) (s : PlannerCfgState) : PlannerCfgState :=
  { s with zones := snap.zones,
           events := snap.events ++ s.events.drop snap.events.length,
           copyCalls := s.copyCalls + 1 }

/-- `IrrigationPlanner::irrigConfigUpdated` (lines 489-520): defer the
update when the caller-controlled config lock is held, otherwise copy
the fresh configuration in and invoke the registered hook (if any). -/
def irrigConfigUpdated (snap : SettingsSnapshot) (s : PlannerCfgState) : PlannerCfgState :=
  if s.configLock then { s with configUpdatedDuringLock := true }
  else
    let s1 := copyZonesAndEvents snap s
    match s1.configUpdatedHook with
    | some _ => { s1 with hookCalls := s1.hookCalls + 1 }
    | none => s1

/-- `IrrigationPlanner::setConfigLock` (lines 462-471): store the new
lock state; on release with a pending update, clear the pending flag and
re-run `irrigConfigUpdated`. -/
def setConfigLock (snap : SettingsSnapshot) (lockState : Bool)
    (s : PlannerCfgState) : PlannerCfgState :=
  let s1 := { s with configLock := lockState }
  if lockState = false ∧ s.configUpdatedDuringLock = true then
    irrigConfigUpdated snap { s1 with configUpdatedDuringLock := false }
  else s1

/-- `IrrigationPlanner::getConfigLock` (lines 473-476). -/
def getConfigLock (s : PlannerCfgState) : Bool := s.configLock

/-- `IrrigationPlanner::registerIrrigPlanUpdatedHook` (lines 522-538):
replace the stored callback/parameter pair.  The hook mutex is modelled
as always acquired, so the `ERR_TIMEOUT` branch is unreachable. -/
def registerIrrigPlanUpdatedHook (hook : Option Nat) (param : Nat)
    (s : PlannerCfgState) : err_t × PlannerCfgState :=
  (ERR_OK, { s with configUpdatedHook := hook, configUpdatedHookParamPtr := param })

/-! ## Specification-side definitions used to state the claims -/

/-- Apply `updateReferenceTime t` to every used slot of a pool (unused
slots are skipped and left stale). -/
def updateAllUsed (t : Nat) (pool : List Slot) : List Slot :=
  pool.map (fun s => if s.2 then (updateReferenceTime s.1 t, s.2) else s)

/-- The cached next-occurrence times of the live slots with a valid
(non-zero) occurrence, in pool order. -/
def liveOccs (pool : List Slot) : List Nat :=
  pool.filterMap (fun s =>
    if s.2 ∧ s.1.nextOccurance ≠ 0 then some s.1.nextOccurance else none)

/-- Running minimum with an optional accumulator. -/
def omin : Option Nat → Nat → Option Nat
  | none, c => some c
  | some a, c => some (min a c)

/-- Minimum of a list of occurrence times, `0` when the list is empty
(the planner's "no valid next occurrence" result). -/
def minOcc0 (l : List Nat) : Nat := l.min?.getD 0

/-- Handles of all live slots of one pool whose cached occurrence equals
`eventTime`, in ascending index order starting at index `i`. -/
def matchHandles (isStart : Bool) (eventTime : Nat) :
    List Slot → Nat → List event_handle_t
  | [], _ => []
  | (e, u) :: rest, i =>
    (if u ∧ getNextOccurance e = eventTime then
      [{ idx := (i : Int), isStart := isStart }]
    else []) ++ matchHandles isStart eventTime rest (i + 1)

/-- All matches of a `getEventHandles` query, start pool fully scanned
before the stop pool. -/
def allMatches (eventTime : Nat) (events stopEvents : List Slot) :
    List event_handle_t :=
  matchHandles true eventTime events 0 ++ matchHandles false eventTime stopEvents 0

/-- Write the elements of `hs` into consecutive positions of `dest`
starting at position `k`. -/
def writeSeq (dest : List event_handle_t) (k : Nat) :
    List event_handle_t → List event_handle_t
  | [] => dest
  | h :: hs => writeSeq (dest.set k h) (k + 1) hs

/-- Number of used slots of a pool. -/
def countUsed (pool : List Slot) : Nat := (pool.filter (fun s => s.2)).length

/-! ## Concrete fixtures used by witnesses and counterexamples -/

/-- A one-shot start event at 1970-01-01 23:59:30 (epoch 86370) with a
60 s duration, as in the spec's round-trip example. -/
def evA : IrrigationEvent :=
  { zoneIdx := 3, durationSecs := 60, isStart := true,
    recur := RecurrenceDef.single 23 59 30 1 1 1970, refTime := 10,
    nextOccurance := 86370 }

/-- A stop-pool event with cached occurrence 100. -/
def evB : IrrigationEvent :=
  { zoneIdx := 1, durationSecs := 0, isStart := false,
    recur := RecurrenceDef.single 0 0 0 1 1 1970, refTime := 0,
    nextOccurance := 100 }

/-- A single-shot event at 1970-01-02 00:00:30 (epoch 86430). -/
def evC : IrrigationEvent :=
  { zoneIdx := 0, durationSecs := 0, isStart := true,
    recur := RecurrenceDef.single 0 0 30 2 1 1970, refTime := 0,
    nextOccurance := 0 }

/-- A concrete zone configuration. -/
def zoneA : irrigation_zone_cfg_t :=
  { name := "front lawn", chEnabled := [true, false], chNum := [4, 0],
    chStateStart := [true, false], chStateStop := [false, false] }

/-- A second concrete zone configuration. -/
def zoneB : irrigation_zone_cfg_t :=
  { name := "back lawn", chEnabled := [false, true], chNum := [0, 5],
    chStateStart := [false, true], chStateStop := [false, false] }

/-- A configuration state with the config lock held and a hook
registered. -/
def cfgLocked : PlannerCfgState :=
  { zones := [zoneA], events := [(evA, true)], configLock := true,
    configUpdatedDuringLock := false, configUpdatedHook := some 7,
    configUpdatedHookParamPtr := 5, copyCalls := 0, hookCalls := 0 }

/-- A configuration state with the config lock free. -/
def cfgFree : PlannerCfgState :=
  { cfgLocked with configLock := false }

/-- A fresh snapshot from the settings collaborator. -/
def snapA : SettingsSnapshot :=
  { zones := [zoneB], events := [(evB, true)] }

/-! ## Calendar lemmas -/

theorem daysInYear_pos (y : Nat) : 0 < daysInYear y := by
  unfold daysInYear; split <;> omega

theorem daysInMonth_pos (leap : Bool) (m : Nat) : 0 < daysInMonth leap m := by
  unfold daysInMonth
  split
  · split <;> omega
  · split <;> omega

theorem yearStartDay_succ (y : Nat) (h : 1970 ≤ y) :
    yearStartDay (y + 1) = yearStartDay y + daysInYear y := by
  unfold yearStartDay
  have h1 : y + 1 - 1970 = (y - 1970) + 1 := by omega
  have h2 : 1970 + (y - 1970) = y := by omega
  rw [h1]
  show ysdGo (y - 1970) + daysInYear (1970 + (y - 1970)) = _
  rw [h2]

theorem dayToYearAuxF_spec (fuel : Nat) : ∀ y d, d < fuel → 1970 ≤ y →
    yearStartDay (dayToYearAuxF fuel y d).1 + (dayToYearAuxF fuel y d).2 =
      yearStartDay y + d ∧
    (dayToYearAuxF fuel y d).2 < daysInYear (dayToYearAuxF fuel y d).1 ∧
    1970 ≤ (dayToYearAuxF fuel y d).1 := by
  induction fuel with
  | zero => intro y d hd; omega
  | succ n ih =>
    intro y d hd hy
    rw [dayToYearAuxF]
    split
    · exact ⟨rfl, by assumption, hy⟩
    · have hpos := daysInYear_pos y
      have hge : ¬ d < daysInYear y := by assumption
      obtain ⟨ih1, ih2, ih3⟩ :=
        ih (y + 1) (d - daysInYear y) (by omega) (by omega)
      refine ⟨?_, ih2, ih3⟩
      rw [ih1, yearStartDay_succ y hy]
      omega

theorem dayToYearAux_spec (d : Nat) : ∀ y, 1970 ≤ y →
    yearStartDay (dayToYearAux y d).1 + (dayToYearAux y d).2 = yearStartDay y + d ∧
    (dayToYearAux y d).2 < daysInYear (dayToYearAux y d).1 ∧
    1970 ≤ (dayToYearAux y d).1 := by
  intro y hy
  exact dayToYearAuxF_spec (d + 1) y d (by omega) hy

theorem doyToMonthAuxF_spec (leap : Bool) (fuel : Nat) : ∀ m doy, doy < fuel →
    monthStartDoy leap (doyToMonthAuxF leap fuel m doy).1 +
      (doyToMonthAuxF leap fuel m doy).2 = monthStartDoy leap m + doy ∧
    (doyToMonthAuxF leap fuel m doy).2 <
      daysInMonth leap (doyToMonthAuxF leap fuel m doy).1 := by
  induction fuel with
  | zero => intro m doy hd; omega
  | succ n ih =>
    intro m doy hd
    rw [doyToMonthAuxF]
    split
    · exact ⟨rfl, by assumption⟩
    · have hpos := daysInMonth_pos leap m
      have hge : ¬ doy < daysInMonth leap m := by assumption
      obtain ⟨ih1, ih2⟩ := ih (m + 1) (doy - daysInMonth leap m) (by omega)
      refine ⟨?_, ih2⟩
      rw [ih1]
      show monthStartDoy leap m + daysInMonth leap m + _ = _
      omega

theorem doyToMonthAux_spec (doy : Nat) : ∀ leap m,
    monthStartDoy leap (doyToMonthAux leap m doy).1 + (doyToMonthAux leap m doy).2 =
      monthStartDoy leap m + doy ∧
    (doyToMonthAux leap m doy).2 < daysInMonth leap (doyToMonthAux leap m doy).1 := by
  intro leap m
  exact doyToMonthAuxF_spec leap (doy + 1) m doy (by omega)

/-- The modelled `mktime` is a left inverse of the modelled
`localtime_r`: round-tripping a `time_t` through the calendar fields is
the identity. -/
theorem mktime_localtime (t : Nat) : mktime (localtime_r t) = t := by
  obtain ⟨h1, h2, h3⟩ := dayToYearAux_spec (t / 86400) 1970 (by omega)
  obtain ⟨g1, g2⟩ :=
    doyToMonthAux_spec (dayToYearAux 1970 (t / 86400)).2
      (isLeap (dayToYearAux 1970 (t / 86400)).1) 0
  have hY : (dayToYearAux 1970 (t / 86400)).1 - 1900 + 1900 =
      (dayToYearAux 1970 (t / 86400)).1 := by omega
  simp only [localtime_r, mktime, dayToYMD, hY]
  have hysd : yearStartDay 1970 = 0 := rfl
  have hmsd :
      monthStartDoy (isLeap (dayToYearAux 1970 (t / 86400)).1) 0 = 0 := rfl
  rw [hysd] at h1
  rw [hmsd] at g1
  omega

theorem mktime_sec_shift (tm : tm_t) (k : Nat) (isd : Int) :
    mktime { tm with tm_sec := tm.tm_sec + k, tm_isdst := isd } = mktime tm + k := by
  simp only [mktime]
  omega

theorem mktime_sec_succ (tm : tm_t) :
    mktime { tm with tm_sec := tm.tm_sec + 1 } = mktime tm + 1 := by
  simp only [mktime]
  omega

/-- The one-second floor advance of `getNextEventTime(…, true)`
(lines 79-86): incrementing `tm_sec` and normalizing back through
`mktime` adds exactly one second. -/
theorem floor_advance (t : Nat) :
    mktime { localtime_r t with tm_sec := (localtime_r t).tm_sec + 1 } = t + 1 := by
  rw [mktime_sec_succ, mktime_localtime]

/-- Adding a duration to `tm_sec` of the broken-down time and
renormalizing yields plain addition of seconds. -/
theorem mktime_add_duration (t k : Nat) :
    mktime { localtime_r t with
      tm_sec := (localtime_r t).tm_sec + k
      tm_isdst := (-1 : Int) } = t + k := by
  rw [mktime_sec_shift, mktime_localtime]

/-! ## Recurrence-engine lemmas -/

theorem weeklyNextAux_ge (weekdays : List Nat) (tod now : Nat) :
    ∀ fuel d, weeklyNextAux weekdays tod now fuel d ≠ 0 →
      now ≤ weeklyNextAux weekdays tod now fuel d := by
  intro fuel
  induction fuel with
  | zero => intro d h; simp [weeklyNextAux] at h
  | succ n ih =>
    intro d h
    rw [weeklyNextAux] at h ⊢
    split
    · next hc => exact hc.2
    · next hc =>
      rw [if_neg hc] at h
      exact ih (d + 1) h

/-- A non-zero occurrence computed for reference time `now` lies at or
after `now` ("next occurrence at or after `now`"). -/
theorem computeNextOccurance_ge (r : RecurrenceDef) (now : Nat)
    (h : computeNextOccurance r now ≠ 0) : now ≤ computeNextOccurance r now := by
  cases r with
  | single hh mm ss dd mo yy =>
    simp only [computeNextOccurance] at h ⊢
    split
    · next hle => exact hle
    · next hle =>
      rw [if_neg hle] at h
      exact absurd rfl h
  | weekly hh mm ss weekdays =>
    simp only [computeNextOccurance] at h ⊢
    exact weeklyNextAux_ge _ _ _ _ _ h

theorem updateReferenceTime_ge (e : IrrigationEvent) (now : Nat)
    (h : (updateReferenceTime e now).nextOccurance ≠ 0) :
    now ≤ (updateReferenceTime e now).nextOccurance := by
  unfold updateReferenceTime at h ⊢
  exact computeNextOccurance_ge e.recur now h

/-! ## Minimum-fold lemmas -/

theorem foldl_omin_some (l : List Nat) :
    ∀ a, l.foldl omin (some a) = some (l.foldl min a) := by
  induction l with
  | nil => intro a; rfl
  | cons x xs ih => intro a; simpa [omin] using ih (min a x)

theorem foldl_omin_none (l : List Nat) : l.foldl omin none = l.min? := by
  cases l with
  | nil => rfl
  | cons x xs =>
    show xs.foldl omin (omin none x) = _
    simp [omin, foldl_omin_some, List.min?]

theorem foldl_min_comm (l : List Nat) :
    ∀ a b, l.foldl min (min a b) = min a (l.foldl min b) := by
  induction l with
  | nil => intro a b; rfl
  | cons x xs ih =>
    intro a b
    show xs.foldl min (min (min a b) x) = min a (xs.foldl min (min b x))
    rw [Nat.min_assoc, ih]

theorem min?_foldl (l : List Nat) (m : Nat) (h : l.min? = some m) :
    ∀ a, l.foldl min a = min a m := by
  cases l with
  | nil => simp [List.min?] at h
  | cons x xs =>
    intro a
    simp only [List.min?] at h
    obtain rfl : xs.foldl min x = m := by simpa using h
    show xs.foldl min (min a x) = _
    rw [foldl_min_comm]

theorem foldl_omin_eq_none (l : List Nat) (h : l.foldl omin none = none) :
    l = [] := by
  cases l with
  | nil => rfl
  | cons x xs =>
    exfalso
    have hx : xs.foldl omin (omin none x) = none := h
    rw [show omin none x = some x from rfl, foldl_omin_some] at hx
    exact Option.noConfusion hx

/-! ## Pool-scan lemmas (`getNextEventIdx`) -/

theorem updateAllUsed_cons_false (t : Nat) (e : IrrigationEvent) (l : List Slot) :
    updateAllUsed t ((e, false) :: l) = (e, false) :: updateAllUsed t l := by
  simp [updateAllUsed]

theorem updateAllUsed_cons_true (t : Nat) (e : IrrigationEvent) (l : List Slot) :
    updateAllUsed t ((e, true) :: l) =
      (updateReferenceTime e t, true) :: updateAllUsed t l := by
  simp [updateAllUsed]

theorem liveOccs_cons_false (e : IrrigationEvent) (l : List Slot) :
    liveOccs ((e, false) :: l) = liveOccs l := by
  simp [liveOccs]

theorem liveOccs_cons_true_zero (e : IrrigationEvent) (l : List Slot)
    (h : e.nextOccurance = 0) : liveOccs ((e, true) :: l) = liveOccs l := by
  simp [liveOccs, h]

theorem liveOccs_cons_true_nz (e : IrrigationEvent) (l : List Slot)
    (h : e.nextOccurance ≠ 0) :
    liveOccs ((e, true) :: l) = e.nextOccurance :: liveOccs l := by
  simp [liveOccs, h]

theorem eventLt_iff (a b : IrrigationEvent) (ha : a.nextOccurance ≠ 0)
    (hb : b.nextOccurance ≠ 0) :
    (eventLt a b = true) ↔ a.nextOccurance < b.nextOccurance := by
  simp [eventLt, ha, hb]

/-- The pool scan updates the reference time of exactly the used slots. -/
theorem getNextEventIdxAux_snd (t : Nat) (l : List Slot) :
    ∀ i best, (getNextEventIdxAux t i best l).2 = updateAllUsed t l := by
  induction l with
  | nil => intro i best; rfl
  | cons s rest ih =>
    intro i best
    obtain ⟨e, u⟩ := s
    cases u
    · simpa [getNextEventIdxAux, updateAllUsed_cons_false] using ih (i + 1) best
    · simpa [getNextEventIdxAux, updateAllUsed_cons_true] using
        ih (i + 1) _

/-- The running best of the pool scan folds the minimum over the live,
valid occurrences, and always has a non-zero occurrence. -/
theorem getNextEventIdxAux_fst (t : Nat) (l : List Slot) :
    ∀ i best, (∀ p, best = some p → p.2.nextOccurance ≠ 0) →
      ((getNextEventIdxAux t i best l).1.map (fun p => p.2.nextOccurance) =
        (liveOccs (updateAllUsed t l)).foldl omin
          (best.map (fun p => p.2.nextOccurance))) ∧
      (∀ p, (getNextEventIdxAux t i best l).1 = some p →
        p.2.nextOccurance ≠ 0) := by
  induction l with
  | nil => intro i best hb; exact ⟨rfl, hb⟩
  | cons s rest ih =>
    intro i best hb
    obtain ⟨e, u⟩ := s
    cases u
    · rw [updateAllUsed_cons_false, liveOccs_cons_false]
      simpa [getNextEventIdxAux] using ih (i + 1) best hb
    · rw [updateAllUsed_cons_true]
      by_cases hz : (updateReferenceTime e t).nextOccurance = 0
      · rw [liveOccs_cons_true_zero _ _ hz]
        cases best with
        | none =>
          simpa [getNextEventIdxAux, getNextOccurance, hz] using
            ih (i + 1) none hb
        | some p =>
          obtain ⟨bi, be⟩ := p
          simpa [getNextEventIdxAux, getNextOccurance, hz] using
            ih (i + 1) (some (bi, be)) hb
      · rw [liveOccs_cons_true_nz _ _ hz]
        cases best with
        | none =>
          have step :
              (getNextEventIdxAux t i none ((e, true) :: rest)).1 =
                (getNextEventIdxAux t (i + 1)
                  (some (i, updateReferenceTime e t)) rest).1 := by
            simp [getNextEventIdxAux, getNextOccurance, hz]
          have hinv : ∀ p, some (i, updateReferenceTime e t) = some p →
              p.2.nextOccurance ≠ 0 := by
            rintro p hp
            cases hp
            exact hz
          obtain ⟨ih1, ih2⟩ := ih (i + 1) (some (i, updateReferenceTime e t)) hinv
          refine ⟨?_, by rw [step]; exact ih2⟩
          rw [step, ih1]
          rfl
        | some p =>
          obtain ⟨bi, be⟩ := p
          have hbe : be.nextOccurance ≠ 0 := hb (bi, be) rfl
          by_cases hlt : (updateReferenceTime e t).nextOccurance < be.nextOccurance
          · have step :
                (getNextEventIdxAux t i (some (bi, be)) ((e, true) :: rest)).1 =
                  (getNextEventIdxAux t (i + 1)
                    (some (i, updateReferenceTime e t)) rest).1 := by
              simp [getNextEventIdxAux, getNextOccurance, hz,
                (eventLt_iff _ _ hz hbe).2 hlt]
            have hinv : ∀ p, some (i, updateReferenceTime e t) = some p →
                p.2.nextOccurance ≠ 0 := by
              rintro p hp
              cases hp
              exact hz
            obtain ⟨ih1, ih2⟩ := ih (i + 1) (some (i, updateReferenceTime e t)) hinv
            refine ⟨?_, by rw [step]; exact ih2⟩
            rw [step, ih1]
            show _ = List.foldl omin (omin (some be.nextOccurance) _) _
            rw [show omin (some be.nextOccurance) (updateReferenceTime e t).nextOccurance =
              some (min be.nextOccurance (updateReferenceTime e t).nextOccurance) from rfl]
            rw [Nat.min_eq_right (Nat.le_of_lt hlt)]
            rfl
          · have hnlt : ¬ (eventLt (updateReferenceTime e t) be = true) := by
              rw [eventLt_iff _ _ hz hbe]
              exact hlt
            have step :
                (getNextEventIdxAux t i (some (bi, be)) ((e, true) :: rest)).1 =
                  (getNextEventIdxAux t (i + 1) (some (bi, be)) rest).1 := by
              simp [getNextEventIdxAux, getNextOccurance, hz, hnlt]
            obtain ⟨ih1, ih2⟩ := ih (i + 1) (some (bi, be)) hb
            refine ⟨?_, by rw [step]; exact ih2⟩
            rw [step, ih1]
            show _ = List.foldl omin (omin (some be.nextOccurance) _) _
            rw [show omin (some be.nextOccurance) (updateReferenceTime e t).nextOccurance =
              some (min be.nextOccurance (updateReferenceTime e t).nextOccurance) from rfl]
            rw [Nat.min_eq_left (Nat.le_of_not_lt hlt)]
            rfl

/-- Helper: `getNextEventTime(t, false)` computes the minimum live
valid occurrence after updating all used slots. -/
theorem getNextEventTime_false_min (t : Nat) (events stopEvents : List Slot) :
    (getNextEventTime t false events stopEvents).1 =
      minOcc0 (liveOccs (updateAllUsed t events) ++
        liveOccs (updateAllUsed t stopEvents)) := by
  obtain ⟨hs1, hs2⟩ := getNextEventIdxAux_fst t events 0 none
    (by intro p hp; cases hp)
  obtain ⟨ht1, ht2⟩ := getNextEventIdxAux_fst t stopEvents 0 none
    (by intro p hp; cases hp)
  simp only [getNextEventTime, getNextEventIdx, Bool.false_eq_true, if_false]
  rcases hbs : (getNextEventIdxAux t 0 none events).1 with _ | ⟨bi, be⟩ <;>
    rcases hbt : (getNextEventIdxAux t 0 none stopEvents).1 with _ | ⟨ci, bf⟩ <;>
    rw [hbs] at hs1 <;> rw [hbt] at ht1 <;>
    simp only [Option.map_none', Option.map_some'] at hs1 ht1
  · -- no candidate in either pool
    have hA0 := foldl_omin_eq_none _ hs1.symm
    have hB0 := foldl_omin_eq_none _ ht1.symm
    simp [minOcc0, hA0, hB0, List.min?]
  · -- stop-pool candidate only
    have hA0 := foldl_omin_eq_none _ hs1.symm
    have hBocc : (liveOccs (updateAllUsed t stopEvents)).min? =
        some bf.nextOccurance := by
      rw [← foldl_omin_none]
      exact ht1.symm
    simp [minOcc0, hA0, hBocc, getNextOccurance]
  · -- start-pool candidate only
    have hB0 := foldl_omin_eq_none _ ht1.symm
    have hAocc : (liveOccs (updateAllUsed t events)).min? =
        some be.nextOccurance := by
      rw [← foldl_omin_none]
      exact hs1.symm
    simp [minOcc0, hB0, hAocc, getNextOccurance]
  · -- candidates in both pools: `operator<` picks the smaller one
    have hbe : be.nextOccurance ≠ 0 := hs2 _ hbs
    have hbf : bf.nextOccurance ≠ 0 := ht2 _ hbt
    have hBocc : (liveOccs (updateAllUsed t stopEvents)).min? =
        some bf.nextOccurance := by
      rw [← foldl_omin_none]
      exact ht1.symm
    have hcat : (liveOccs (updateAllUsed t events) ++
        liveOccs (updateAllUsed t stopEvents)).foldl omin none =
        some (min be.nextOccurance bf.nextOccurance) := by
      rw [List.foldl_append, ← hs1, foldl_omin_some,
        min?_foldl _ _ hBocc be.nextOccurance]
    have hmin : minOcc0 (liveOccs (updateAllUsed t events) ++
        liveOccs (updateAllUsed t stopEvents)) =
        min be.nextOccurance bf.nextOccurance := by
      rw [minOcc0, ← foldl_omin_none, hcat]
      rfl
    rw [hmin]
    show (if eventLt be bf = true then getNextOccurance be
      else getNextOccurance bf) = min be.nextOccurance bf.nextOccurance
    by_cases hlt : be.nextOccurance < bf.nextOccurance
    · rw [if_pos ((eventLt_iff _ _ hbe hbf).2 hlt)]
      rw [getNextOccurance, Nat.min_eq_left (Nat.le_of_lt hlt)]
    · have hf : ¬ (eventLt be bf = true) := by
        rw [eventLt_iff _ _ hbe hbf]
        exact hlt
      rw [if_neg hf]
      rw [getNextOccurance, Nat.min_eq_right (Nat.le_of_not_lt hlt)]

/-! ## Claim C1 -/

/-- Claim C1: for every state of the two pools and every time `t`,
`getNextEventTime(t, false)` returns the minimum cached next-occurrence
time over all live (used-flag true) slots with a non-zero occurrence in
both the start and stop pools, after `updateReferenceTime(t)` has been
applied to every used slot, and returns `0` if no live slot has a valid
(non-zero) next occurrence. -/
theorem c1_getNextEventTime_is_min (t : Nat) (events stopEvents : List Slot) :
    (getNextEventTime t false events stopEvents).1 =
      minOcc0 (liveOccs (updateAllUsed t events) ++
        liveOccs (updateAllUsed t stopEvents)) :=
  getNextEventTime_false_min t events stopEvents

/-! ## Claim C6 -/

theorem liveOccs_updateAll_ge (t : Nat) (pool : List Slot) :
    ∀ x ∈ liveOccs (updateAllUsed t pool), t ≤ x := by
  intro x hx
  simp only [liveOccs, updateAllUsed, List.filterMap_map] at hx
  obtain ⟨p, hp, hf⟩ := List.mem_filterMap.1 hx
  obtain ⟨e, u⟩ := p
  cases u
  · simp at hf
  · simp only [Function.comp, if_pos rfl] at hf
    by_cases hz : (updateReferenceTime e t).nextOccurance = 0
    · simp [hz] at hf
    · simp [hz] at hf
      rw [← hf]
      exact updateReferenceTime_ge e t hz

theorem mem_liveOccs_updateAll (t : Nat) (pool : List Slot) (p : Slot)
    (hp : p ∈ pool) (hu : p.2 = true)
    (hz : (updateReferenceTime p.1 t).nextOccurance ≠ 0) :
    (updateReferenceTime p.1 t).nextOccurance ∈ liveOccs (updateAllUsed t pool) := by
  simp only [liveOccs, updateAllUsed, List.filterMap_map]
  refine List.mem_filterMap.2 ⟨p, hp, ?_⟩
  obtain ⟨e, u⟩ := p
  simp only at hu
  cases hu
  simp [hz]

theorem foldl_min_ge (c : Nat) (l : List Nat) :
    ∀ a, c ≤ a → (∀ x ∈ l, c ≤ x) → c ≤ l.foldl min a := by
  induction l with
  | nil => intro a ha _; exact ha
  | cons x xs ih =>
    intro a ha hall
    show c ≤ xs.foldl min (min a x)
    exact ih (min a x) (le_min ha (hall x (List.mem_cons_self x xs)))
      (fun y hy => hall y (List.mem_cons_of_mem x hy))

theorem minOcc0_ge (l : List Nat) (c : Nat) (hne : l ≠ [])
    (hall : ∀ x ∈ l, c ≤ x) : c ≤ minOcc0 l := by
  cases l with
  | nil => exact absurd rfl hne
  | cons a xs =>
    rw [minOcc0, show (a :: xs).min? = some (xs.foldl min a) from rfl]
    exact foldl_min_ge c xs a (hall a (by simp))
      (fun x hx => hall x (by simp [hx]))

/-- Claim C6: for every time `t`, `getNextEventTime(t, true)` advances
the search floor by exactly one second via a calendar round-trip before
scanning (so it behaves exactly like `getNextEventTime(t+1, false)`),
and it never returns a time equal to `t` when at least one live slot has
a valid occurrence strictly later than `t`. -/
theorem c6_excludeStartTime_skips_t (t : Nat) (events stopEvents : List Slot) :
    (getNextEventTime t true events stopEvents).1 =
      (getNextEventTime (t + 1) false events stopEvents).1 ∧
    (((∃ p ∈ events, p.2 = true ∧
        t < (updateReferenceTime p.1 (t + 1)).nextOccurance) ∨
      (∃ p ∈ stopEvents, p.2 = true ∧
        t < (updateReferenceTime p.1 (t + 1)).nextOccurance)) →
      (getNextEventTime t true events stopEvents).1 ≠ t) := by
  have hfloor : getNextEventTime t true events stopEvents =
      getNextEventTime (t + 1) false events stopEvents := by
    simp only [getNextEventTime, floor_advance, if_true, Bool.false_eq_true,
      if_false]
  refine ⟨by rw [hfloor], ?_⟩
  intro hex
  rw [hfloor, getNextEventTime_false_min]
  have hmem : ∃ x, x ∈ liveOccs (updateAllUsed (t + 1) events) ++
      liveOccs (updateAllUsed (t + 1) stopEvents) := by
    rcases hex with ⟨p, hp, hu, hlt⟩ | ⟨p, hp, hu, hlt⟩
    · exact ⟨_, List.mem_append_left _
        (mem_liveOccs_updateAll (t + 1) events p hp hu (by omega))⟩
    · exact ⟨_, List.mem_append_right _
        (mem_liveOccs_updateAll (t + 1) stopEvents p hp hu (by omega))⟩
  obtain ⟨x, hx⟩ := hmem
  have hge : ∀ y ∈ liveOccs (updateAllUsed (t + 1) events) ++
      liveOccs (updateAllUsed (t + 1) stopEvents), t + 1 ≤ y := by
    intro y hy
    rcases List.mem_append.1 hy with h | h
    · exact liveOccs_updateAll_ge (t + 1) events y h
    · exact liveOccs_updateAll_ge (t + 1) stopEvents y h
  have := minOcc0_ge _ (t + 1) (List.ne_nil_of_mem hx) hge
  omega

/-- Witness for C6 at a concrete input: one live single-shot event at
epoch 86430, queried from `t = 0`. -/
theorem c6_excludeStartTime_skips_t_witness :
    (getNextEventTime 0 true [(evC, true)] []).1 =
      (getNextEventTime 1 false [(evC, true)] []).1 ∧
    (getNextEventTime 0 true [(evC, true)] []).1 ≠ 0 :=
  ⟨(c6_excludeStartTime_skips_t 0 [(evC, true)] []).1,
   (c6_excludeStartTime_skips_t 0 [(evC, true)] []).2
     (Or.inl ⟨(evC, true), by decide, by decide, by decide⟩)⟩

/-! ## Stop-event derivation lemmas (`confirmNormalEvent`) -/

/-- Rebuilding a `time_t` from the broken-down fields produced by
`localtime_r` (with the DST flag set to 0) is the identity. -/
theorem mktime_fields_localtime (s : Nat) :
    mktime { localtime_r s with tm_isdst := 0 } = s := by
  have h : ({ localtime_r s with tm_isdst := 0 } : tm_t) = localtime_r s := rfl
  rw [h, mktime_localtime]

/-- A single-shot recurrence built from the `localtime_r` fields of `s`
(as `setSingleEvent` receives them: 1-based month, absolute year) has
`s` itself as its fixed time. -/
theorem computeNext_single_of_localtime (s now : Nat) :
    computeNextOccurance (RecurrenceDef.single (localtime_r s).tm_hour
      (localtime_r s).tm_min (localtime_r s).tm_sec (localtime_r s).tm_mday
      ((localtime_r s).tm_mon + 1) ((localtime_r s).tm_year + 1900)) now =
    if now ≤ s then s else 0 := by
  simp only [computeNextOccurance, Nat.add_sub_cancel]
  rw [mktime_fields_localtime]

theorem mkStopEvent_isStart (e : IrrigationEvent) :
    (mkStopEvent e).isStart = false := rfl

theorem mkStopEvent_duration (e : IrrigationEvent) :
    (mkStopEvent e).durationSecs = 0 := rfl

theorem mkStopEvent_zoneIdx (e : IrrigationEvent) :
    (mkStopEvent e).zoneIdx = e.zoneIdx := rfl

theorem mkStopEvent_refTime (e : IrrigationEvent) :
    (mkStopEvent e).refTime = e.refTime := rfl

theorem mkStopEvent_single (e : IrrigationEvent) :
    ∃ hh mm ss dd mo yy,
      (mkStopEvent e).recur = RecurrenceDef.single hh mm ss dd mo yy :=
  ⟨_, _, _, _, _, _, rfl⟩

/-- The derived stop event's cached occurrence is the start event's
cached occurrence plus its duration in seconds, computed through the
calendar round-trip. -/
theorem mkStopEvent_occ (e : IrrigationEvent)
    (h : e.refTime ≤ e.nextOccurance) :
    (mkStopEvent e).nextOccurance = e.nextOccurance + e.durationSecs := by
  simp only [mkStopEvent, getEventData, getNextOccurance, getReferenceTime,
    setSingleEvent, setStartFlag, setDuration, setZoneIndex,
    updateReferenceTime]
  rw [mktime_add_duration, computeNext_single_of_localtime]
  rw [if_pos (by omega)]

/-- The allocation loop writes the derived stop event into the first
free slot and leaves everything else unchanged. -/
theorem allocStopSlot_firstFree (e : IrrigationEvent) (l : List Slot) :
    ∀ j se, l.get? j = some (se, false) →
      (∀ k, k < j → ∀ x, l.get? k = some x → x.2 = true) →
      allocStopSlot e l = (true, l.set j (mkStopEvent e, true)) := by
  induction l with
  | nil => intro j se hj _; simp at hj
  | cons s rest ih =>
    intro j se hj hk
    obtain ⟨ev, u⟩ := s
    cases j with
    | zero =>
      rw [List.get?_cons_zero] at hj
      have h2 : u = false := by
        cases hj
        rfl
      subst h2
      simp [allocStopSlot]
    | succ n =>
      have hu : u = true := by
        have := hk 0 (Nat.succ_pos n) (ev, u) rfl
        exact this
      subst hu
      rw [List.get?_cons_succ] at hj
      have hrec := ih n se hj
        (fun k hk' x hx => hk (k + 1) (by omega) x (by simpa using hx))
      simp [allocStopSlot, hrec]

/-- When every stop slot is used, the allocation loop fails closed and
leaves the pool unchanged. -/
theorem allocStopSlot_full (e : IrrigationEvent) (l : List Slot)
    (hall : ∀ p ∈ l, p.2 = true) : allocStopSlot e l = (false, l) := by
  induction l with
  | nil => rfl
  | cons s rest ih =>
    obtain ⟨ev, u⟩ := s
    have hu : u = true := hall (ev, u) (List.mem_cons_self _ _)
    subst hu
    have := ih (fun p hp => hall p (List.mem_cons_of_mem _ hp))
    simp [allocStopSlot, this]

/-- Case split for the allocation loop: it either reports the pool full
(and leaves it unchanged), or writes the derived stop event into the
first free slot. -/
theorem allocStopSlot_cases (e : IrrigationEvent) (l : List Slot) :
    (allocStopSlot e l = (false, l) ∧ ∀ p ∈ l, p.2 = true) ∨
    (∃ j se, l.get? j = some (se, false) ∧
      (∀ k, k < j → ∀ x, l.get? k = some x → x.2 = true) ∧
      allocStopSlot e l = (true, l.set j (mkStopEvent e, true))) := by
  induction l with
  | nil => exact Or.inl ⟨rfl, by simp⟩
  | cons s rest ih =>
    obtain ⟨ev, u⟩ := s
    cases u
    · refine Or.inr ⟨0, ev, rfl, ?_, ?_⟩
      · intro k hk
        exact absurd hk (Nat.not_lt_zero k)
      · simp [allocStopSlot]
    · rcases ih with ⟨heq, hall⟩ | ⟨j, se, hj, hk, heq⟩
      · refine Or.inl ⟨by simp [allocStopSlot, heq], ?_⟩
        intro p hp
        rcases List.mem_cons.1 hp with h | h
        · rw [h]
        · exact hall p h
      · refine Or.inr ⟨j + 1, se, by simpa using hj, ?_, by simp [allocStopSlot, heq]⟩
        intro k hk' x hx
        cases k with
        | zero =>
          rw [List.get?_cons_zero] at hx
          cases hx
          rfl
        | succ n =>
          rw [List.get?_cons_succ] at hx
          exact hk n (by omega) x hx

/-- Evaluation of `confirmEvent` on a valid start-pool handle. -/
theorem confirmEvent_start_valid (numNormal idx : Nat) (e : IrrigationEvent)
    (events stopEvents : List Slot) (he : events.get? idx = some (e, true)) :
    confirmEvent numNormal { idx := (idx : Int), isStart := true } events stopEvents =
      ((if (allocStopSlot e stopEvents).1 then ERR_OK else ERR_NO_STOP_SLOT_AVAIL),
       (if numNormal ≤ idx then events.set idx (e, false) else events),
       (allocStopSlot e stopEvents).2) := by
  have hlen : idx < events.length := by
    by_contra hc
    rw [List.get?_eq_none.2 (by omega)] at he
    exact Option.noConfusion he
  have hgetD : events.getD idx default = (e, true) := by
    unfold List.getD
    rw [he]
    rfl
  have hno : ¬ ((idx : Int) < 0) := by omega
  have hton : ((idx : Int)).toNat = idx := rfl
  simp only [confirmEvent, confirmNormalEvent, hno, if_false, hton, hgetD]
  rw [if_neg (by omega : ¬ events.length ≤ idx)]
  simp

/-! ## Claim C2 -/

/-- Claim C2: confirming a valid start-pool handle with a free stop slot
writes a single-shot, non-start, zero-duration stop event with the same
zone index and the start event's reference time into exactly the first
free stop slot, whose cached occurrence equals the start event's cached
occurrence plus its duration in seconds (computed via the calendar
round-trip with the DST flag invalidated). -/
theorem c2_confirm_start_allocates_stop (numNormal idx j : Nat)
    (e se : IrrigationEvent) (events stopEvents : List Slot)
    (he : events.get? idx = some (e, true))
    (href : e.refTime ≤ e.nextOccurance)
    (hj : stopEvents.get? j = some (se, false))
    (hfirst : ∀ k, k < j → ∀ x, stopEvents.get? k = some x → x.2 = true) :
    (confirmEvent numNormal { idx := (idx : Int), isStart := true }
        events stopEvents).1 = ERR_OK ∧
    (confirmEvent numNormal { idx := (idx : Int), isStart := true }
        events stopEvents).2.2.get? j = some (mkStopEvent e, true) ∧
    (∀ k, k ≠ j →
      (confirmEvent numNormal { idx := (idx : Int), isStart := true }
        events stopEvents).2.2.get? k = stopEvents.get? k) ∧
    (mkStopEvent e).isStart = false ∧
    (mkStopEvent e).durationSecs = 0 ∧
    (mkStopEvent e).zoneIdx = e.zoneIdx ∧
    (mkStopEvent e).refTime = e.refTime ∧
    (∃ hh mm ss dd mo yy,
      (mkStopEvent e).recur = RecurrenceDef.single hh mm ss dd mo yy) ∧
    (mkStopEvent e).nextOccurance = e.nextOccurance + e.durationSecs := by
  have halloc := allocStopSlot_firstFree e stopEvents j se hj hfirst
  have hjlen : j < stopEvents.length := by
    by_contra hc
    rw [List.get?_eq_none.2 (by omega)] at hj
    exact Option.noConfusion hj
  rw [confirmEvent_start_valid numNormal idx e events stopEvents he, halloc]
  refine ⟨rfl, ?_, ?_, mkStopEvent_isStart e, mkStopEvent_duration e,
    mkStopEvent_zoneIdx e, mkStopEvent_refTime e, mkStopEvent_single e,
    mkStopEvent_occ e href⟩
  · exact List.get?_set_eq_of_lt _ hjlen
  · intro k hk
    exact List.get?_set_ne _ _ (fun h => hk h.symm)

/-- Witness for C2 at a concrete input: confirming the 23:59:30+60 s
event `evA` lands the stop event on the following day, 00:00:30
(epoch 86430). -/
theorem c2_confirm_start_allocates_stop_witness :
    (confirmEvent 0 { idx := ((0 : Nat) : Int), isStart := true }
        [(evA, true)] [(evB, false)]).1 = ERR_OK ∧
    (mkStopEvent evA).nextOccurance = 86430 := by
  have h := c2_confirm_start_allocates_stop 0 0 0 evA evB
    [(evA, true)] [(evB, false)] (by decide) (by decide) (by decide)
    (fun k hk => absurd hk (Nat.not_lt_zero k))
  exact ⟨h.1, by rw [h.2.2.2.2.2.2.2.2]; rfl⟩

/-! ## Claim C4 -/

/-- Claim C4: on a valid start-pool handle whose index lies beyond the
reserved recurring prefix, `confirmEvent` clears the slot's used-flag
regardless of stop-slot allocation; and whenever no free stop slot
exists it returns `ERR_NO_STOP_SLOT_AVAIL`. -/
theorem c4_oneshot_retired_and_full_error (numNormal idx : Nat)
    (e : IrrigationEvent) (events stopEvents : List Slot)
    (he : events.get? idx = some (e, true)) :
    (numNormal ≤ idx →
      (confirmEvent numNormal { idx := (idx : Int), isStart := true }
        events stopEvents).2.1.get? idx = some (e, false)) ∧
    ((∀ p ∈ stopEvents, p.2 = true) →
      (confirmEvent numNormal { idx := (idx : Int), isStart := true }
        events stopEvents).1 = ERR_NO_STOP_SLOT_AVAIL) := by
  have hlen : idx < events.length := by
    by_contra hc
    rw [List.get?_eq_none.2 (by omega)] at he
    exact Option.noConfusion he
  rw [confirmEvent_start_valid numNormal idx e events stopEvents he]
  constructor
  · intro hone
    rw [if_pos hone]
    exact List.get?_set_eq_of_lt _ hlen
  · intro hfull
    rw [allocStopSlot_full e stopEvents hfull]
    rfl

/-- Witness for C4 at a concrete input: one-shot slot 1 is retired and
the full stop pool yields `ERR_NO_STOP_SLOT_AVAIL`. -/
theorem c4_oneshot_retired_and_full_error_witness :
    (confirmEvent 1 { idx := ((1 : Nat) : Int), isStart := true }
      [(evB, true), (evA, true)] [(evB, true)]).2.1.get? 1 =
        some (evA, false) ∧
    (confirmEvent 1 { idx := ((1 : Nat) : Int), isStart := true }
      [(evB, true), (evA, true)] [(evB, true)]).1 = ERR_NO_STOP_SLOT_AVAIL := by
  have h := c4_oneshot_retired_and_full_error 1 1 evA
    [(evB, true), (evA, true)] [(evB, true)] (by decide)
  exact ⟨h.1 (by decide), h.2 (by decide)⟩

/-! ## Claim C7 -/

/-- Claim C7: `confirmNormalEvent` preserves the stop-pool invariants:
the number of used stop slots never exceeds the pool capacity, a slot
whose used-flag is already true is never overwritten (allocation fails
closed with `false`, mapped to an explicit error, when the pool is
full), and any newly used slot holds the fully constructed stop-event
definition. -/
theorem c7_stop_pool_invariants (numNormal idx : Nat)
    (events stopEvents : List Slot) :
    countUsed (confirmNormalEvent numNormal idx events stopEvents).2.2 ≤
      (confirmNormalEvent numNormal idx events stopEvents).2.2.length ∧
    (confirmNormalEvent numNormal idx events stopEvents).2.2.length =
      stopEvents.length ∧
    (∀ k ev, stopEvents.get? k = some (ev, true) →
      (confirmNormalEvent numNormal idx events stopEvents).2.2.get? k =
        some (ev, true)) ∧
    (∀ k, (confirmNormalEvent numNormal idx events stopEvents).2.2.get? k ≠
        stopEvents.get? k →
      ∃ old, stopEvents.get? k = some (old, false) ∧
        (confirmNormalEvent numNormal idx events stopEvents).2.2.get? k =
          some (mkStopEvent (events.getD idx default).1, true)) ∧
    ((∀ p ∈ stopEvents, p.2 = true) →
      (confirmNormalEvent numNormal idx events stopEvents).1 = false ∧
      (confirmNormalEvent numNormal idx events stopEvents).2.2 = stopEvents) := by
  have hred : (confirmNormalEvent numNormal idx events stopEvents).2.2 =
      (allocStopSlot (events.getD idx default).1 stopEvents).2 := rfl
  have hred1 : (confirmNormalEvent numNormal idx events stopEvents).1 =
      (allocStopSlot (events.getD idx default).1 stopEvents).1 := rfl
  rcases allocStopSlot_cases (events.getD idx default).1 stopEvents with
    ⟨heq, hall⟩ | ⟨j, se, hj, hk, heq⟩
  · rw [hred, hred1, heq]
    refine ⟨List.length_filter_le _ _, rfl, fun k ev h => h, ?_, fun _ => ⟨rfl, rfl⟩⟩
    intro k hkne
    exact absurd rfl hkne
  · have hjlen : j < stopEvents.length := by
      by_contra hc
      rw [List.get?_eq_none.2 (by omega)] at hj
      exact Option.noConfusion hj
    rw [hred, hred1, heq]
    refine ⟨List.length_filter_le _ _, List.length_set _ _ _, ?_, ?_, ?_⟩
    · intro k ev h
      have hkj : k ≠ j := by
        intro hkk
        rw [hkk, hj] at h
        cases h
      rw [List.get?_set_ne _ _ (fun hh => hkj hh.symm)]
      exact h
    · intro k hkne
      by_cases hkj : k = j
      · subst hkj
        exact ⟨se, hj, List.get?_set_eq_of_lt _ hjlen⟩
      · exact absurd (List.get?_set_ne _ _ (fun hh => hkj hh.symm)) hkne
    · intro hall
      have hmem := List.get?_mem hj
      have := hall (se, false) hmem
      cases this

/-- Witness for C7 at a concrete input: a full stop pool makes the
allocation fail closed and leaves the pool unchanged. -/
theorem c7_stop_pool_invariants_witness :
    (confirmNormalEvent 0 0 [(evA, true)] [(evB, true)]).1 = false ∧
    (confirmNormalEvent 0 0 [(evA, true)] [(evB, true)]).2.2 = [(evB, true)] :=
  (c7_stop_pool_invariants 0 0 [(evA, true)] [(evB, true)]).2.2.2.2 (by decide)

/-! ## `getEventHandles` machinery (claims C5 and C8) -/

theorem writeSeq_get? (hs : List event_handle_t) :
    ∀ dest k j, (writeSeq dest k hs).get? j =
      if k ≤ j ∧ j < k + hs.length ∧ j < dest.length then hs.get? (j - k)
      else dest.get? j := by
  induction hs with
  | nil =>
    intro dest k j
    rw [writeSeq, if_neg (by simp only [List.length_nil]; omega)]
  | cons h hs ih =>
    intro dest k j
    rw [writeSeq, ih]
    rw [List.length_set]
    by_cases h1 : k + 1 ≤ j ∧ j < k + 1 + hs.length ∧ j < dest.length
    · rw [if_pos h1, if_pos (by simp only [List.length_cons]; omega)]
      have hj : j - k = (j - (k + 1)) + 1 := by omega
      rw [hj, List.get?_cons_succ]
    · rw [if_neg h1]
      by_cases h2 : j = k
      · subst h2
        by_cases h3 : j < dest.length
        · rw [List.get?_set_eq_of_lt _ h3,
            if_pos (by simp only [List.length_cons]; omega)]
          simp
        · rw [if_neg (by simp only [List.length_cons]; omega)]
          rw [List.get?_eq_none.2 (by rw [List.length_set]; omega),
            List.get?_eq_none.2 (by omega)]
      · rw [List.get?_set_ne _ _ (fun hh => h2 hh.symm)]
        rw [if_neg (by simp only [List.length_cons]; omega)]

theorem writeSeq_append (xs ys : List event_handle_t) :
    ∀ dest k, writeSeq dest k (xs ++ ys) =
      writeSeq (writeSeq dest k xs) (k + xs.length) ys := by
  induction xs with
  | nil => intro dest k; simp [writeSeq]
  | cons x xs ih =>
    intro dest k
    rw [List.cons_append, writeSeq, writeSeq, ih]
    have : k + (x :: xs).length = (k + 1) + xs.length := by
      simp only [List.length_cons]; omega
    rw [this]

theorem setIdxInvalid_get?_self (dest : List event_handle_t) (i : Nat) :
    (setIdxInvalid dest i).get? i =
      (dest.get? i).map (fun h => { h with idx := -1 }) := by
  unfold setIdxInvalid
  cases hd : dest.get? i with
  | none => rw [hd]; rfl
  | some h =>
    have hlen : i < dest.length := by
      by_contra hc
      rw [List.get?_eq_none.2 (by omega)] at hd
      exact Option.noConfusion hd
    simp only [hd, List.get?_eq_getElem?, Option.map_some']
    exact List.getElem?_set_eq_of_lt _ hlen

theorem setIdxInvalid_get?_ne (dest : List event_handle_t) (i j : Nat)
    (hne : j ≠ i) : (setIdxInvalid dest i).get? j = dest.get? j := by
  unfold setIdxInvalid
  cases dest.get? i with
  | none => rfl
  | some h => exact List.get?_set_ne _ _ (fun hh => hne hh.symm)

theorem clearFromAux_get? (fuel : Nat) :
    ∀ dest i j, (clearFromAux fuel dest i).get? j =
      if i ≤ j ∧ j < i + fuel then
        (dest.get? j).map (fun h => { h with idx := -1 })
      else dest.get? j := by
  induction fuel with
  | zero =>
    intro dest i j
    rw [clearFromAux, if_neg (by omega)]
  | succ n ih =>
    intro dest i j
    rw [clearFromAux, ih]
    by_cases h1 : i + 1 ≤ j ∧ j < i + 1 + n
    · rw [if_pos h1, if_pos (by omega), setIdxInvalid_get?_ne _ _ _ (by omega)]
    · rw [if_neg h1]
      by_cases h2 : j = i
      · subst h2
        rw [if_pos (by omega), setIdxInvalid_get?_self]
      · rw [if_neg (by omega), setIdxInvalid_get?_ne _ _ _ h2]

/-- Characterization of one `getEventHandles` scan loop: it writes the
first `maxElements - handleCnt` of the pool's matches after position
`handleCnt` of the buffer, reports `min`-saturated progress, and raises
the partial flag exactly when the matches overflow the buffer. -/
theorem scanPool_spec (isStart : Bool) (T maxEl : Nat) (pool : List Slot) :
    ∀ i cnt dest, cnt ≤ maxEl →
      (scanPool isStart T maxEl pool i cnt dest).1 =
        min (cnt + (matchHandles isStart T pool i).length) maxEl ∧
      ((scanPool isStart T maxEl pool i cnt dest).2.2 = true ↔
        maxEl < cnt + (matchHandles isStart T pool i).length) ∧
      (scanPool isStart T maxEl pool i cnt dest).2.1 =
        writeSeq dest cnt ((matchHandles isStart T pool i).take (maxEl - cnt)) := by
  induction pool with
  | nil =>
    intro i cnt dest hcnt
    refine ⟨by simp [scanPool, matchHandles]; omega, ?_, ?_⟩
    · simp [scanPool, matchHandles]
      omega
    · simp [scanPool, matchHandles, writeSeq]
  | cons s rest ih =>
    intro i cnt dest hcnt
    obtain ⟨e, u⟩ := s
    by_cases hm : u = true ∧ getNextOccurance e = T
    · have hmh : matchHandles isStart T ((e, u) :: rest) i =
          { idx := (i : Int), isStart := isStart } ::
            matchHandles isStart T rest (i + 1) := by
        simp [matchHandles, hm]
      by_cases hlt : cnt < maxEl
      · have hstep : scanPool isStart T maxEl ((e, u) :: rest) i cnt dest =
            scanPool isStart T maxEl rest (i + 1) (cnt + 1)
              (dest.set cnt { idx := (i : Int), isStart := isStart }) := by
          simp [scanPool, hm, hlt]
        obtain ⟨ih1, ih2, ih3⟩ := ih (i + 1) (cnt + 1)
          (dest.set cnt { idx := (i : Int), isStart := isStart }) (by omega)
        rw [hstep, hmh]
        refine ⟨by rw [ih1]; simp only [List.length_cons]; omega, ?_, ?_⟩
        · rw [ih2]
          simp only [List.length_cons]
          omega
        · rw [ih3]
          have htake : maxEl - cnt = (maxEl - (cnt + 1)) + 1 := by omega
          rw [htake, List.take_succ_cons, writeSeq]
      · have hstep : scanPool isStart T maxEl ((e, u) :: rest) i cnt dest =
            (cnt, dest, true) := by
          simp [scanPool, hm, hlt]
        rw [hstep, hmh]
        refine ⟨by simp only [List.length_cons]; omega, ?_, ?_⟩
        · simp only [List.length_cons]
          constructor
          · intro _
            omega
          · intro _
            trivial
        · have htake : maxEl - cnt = 0 := by omega
          rw [htake, List.take_zero, writeSeq]
    · have hmh : matchHandles isStart T ((e, u) :: rest) i =
          matchHandles isStart T rest (i + 1) := by
        simp [matchHandles, hm]
      have hstep : scanPool isStart T maxEl ((e, u) :: rest) i cnt dest =
          scanPool isStart T maxEl rest (i + 1) cnt dest := by
        simp [scanPool, hm]
      rw [hstep, hmh]
      exact ih (i + 1) cnt dest hcnt

/-- Full evaluation of `getEventHandles`: the return code is decided by
the number of matches against the capacity (`ERR_NO_HANDLES_FOUND`
overriding a pending partial flag when nothing was written), and the
buffer holds the first `maxElements` matches followed by invalidated
entries. -/
theorem getEventHandles_eval (T : Nat) (events stopEvents : List Slot)
    (dest : List event_handle_t) (maxEl : Nat) :
    getEventHandles T events stopEvents dest maxEl =
      ((if (allMatches T events stopEvents).length = 0 ∨ maxEl = 0 then
          ERR_NO_HANDLES_FOUND
        else if maxEl < (allMatches T events stopEvents).length then
          ERR_PARTIAL_EVENT_HANDLES
        else ERR_OK),
       clearFrom (writeSeq dest 0 ((allMatches T events stopEvents).take maxEl))
         (min (allMatches T events stopEvents).length maxEl) maxEl) := by
  obtain ⟨h11, h12, h13⟩ := scanPool_spec true T maxEl events 0 0 dest (by omega)
  obtain ⟨h21, h22, h23⟩ := scanPool_spec false T maxEl stopEvents 0
    (scanPool true T maxEl events 0 0 dest).1
    (scanPool true T maxEl events 0 0 dest).2.1 (by rw [h11]; omega)
  rw [Nat.sub_zero] at h13
  simp only [getEventHandles, allMatches]
  congr 1
  · -- the return code
    by_cases hz : (matchHandles true T events 0 ++
        matchHandles false T stopEvents 0).length = 0 ∨ maxEl = 0
    · rw [if_pos (by rw [h21, h11]; rw [List.length_append] at hz; omega),
        if_pos hz]
    · rw [if_neg (by rw [h21, h11]; rw [List.length_append] at hz; omega),
        if_neg hz]
      by_cases hpp : maxEl < (matchHandles true T events 0 ++
          matchHandles false T stopEvents 0).length
      · rw [if_pos (by
          rw [Bool.or_eq_true, h12, h22, h11]
          rw [List.length_append] at hpp hz
          omega), if_pos hpp]
      · rw [if_neg (by
          rw [Bool.or_eq_true, h12, h22, h11]
          rw [List.length_append] at hpp hz
          omega), if_neg hpp]
  · -- the buffer
    rw [h21, h23, h13, h11]
    congr 1
    · rw [List.take_append_eq_append_take, writeSeq_append, Nat.zero_add]
      congr 1
      · rw [List.length_take]
        omega
      · congr 1
        omega
    · rw [List.length_append]
      omega

/-- Buffer-contents characterization of `getEventHandles`: position `j`
of the result holds the `j`-th match while `j < handleCnt`, an
invalidated copy of the old entry while `handleCnt ≤ j < maxElements`,
and the untouched old entry for `j ≥ maxElements`. -/
theorem getEventHandles_dest_get? (T : Nat) (events stopEvents : List Slot)
    (dest : List event_handle_t) (maxEl : Nat) (h : maxEl ≤ dest.length)
    (j : Nat) :
    (getEventHandles T events stopEvents dest maxEl).2.get? j =
      if j < min (allMatches T events stopEvents).length maxEl then
        (allMatches T events stopEvents).get? j
      else if j < maxEl then
        (dest.get? j).map (fun h => { h with idx := -1 })
      else dest.get? j := by
  rw [getEventHandles_eval]
  show (clearFrom (writeSeq dest 0 ((allMatches T events stopEvents).take maxEl))
    (min (allMatches T events stopEvents).length maxEl) maxEl).get? j = _
  rw [clearFrom, clearFromAux_get?, writeSeq_get?]
  have hwl : (writeSeq dest 0 ((allMatches T events stopEvents).take maxEl)) =
      writeSeq dest 0 ((allMatches T events stopEvents).take maxEl) := rfl
  have hlen1 : ((allMatches T events stopEvents).take maxEl).length =
      min (allMatches T events stopEvents).length maxEl := by
    rw [List.length_take]
    omega
  by_cases h1 : j < min (allMatches T events stopEvents).length maxEl
  · rw [if_neg (by omega), if_pos ⟨by omega, by rw [Nat.zero_add, hlen1]; omega,
      by omega⟩, if_pos h1, Nat.sub_zero]
    exact List.get?_take (by omega)
  · rw [if_neg h1]
    by_cases h2 : j < maxEl
    · rw [if_pos h2, if_pos (by omega),
        if_neg (by rw [Nat.zero_add, hlen1]; omega)]
    · rw [if_neg h2, if_neg (by omega),
        if_neg (by rw [Nat.zero_add, hlen1]; omega)]

/-! ## Claim C8 -/

/-- Claim C8: `getEventHandles` writes the matching handles into `dest`
in pool-scan order (start pool fully scanned before the stop pool, each
in ascending index order), clears every unfilled trailing entry up to
`maxElements` to the invalid sentinel (`idx = -1`, only the `idx` field
is assigned), and never writes to any position at or beyond
`maxElements`. -/
theorem c8_getEventHandles_layout (T : Nat) (events stopEvents : List Slot)
    (dest : List event_handle_t) (maxEl : Nat) (h : maxEl ≤ dest.length) :
    ∀ j, (getEventHandles T events stopEvents dest maxEl).2.get? j =
      if j < min (allMatches T events stopEvents).length maxEl then
        (allMatches T events stopEvents).get? j
      else if j < maxEl then
        (dest.get? j).map (fun h => { h with idx := -1 })
      else dest.get? j :=
  fun j => getEventHandles_dest_get? T events stopEvents dest maxEl h j

/-- Witness for C8 at a concrete input: one match is written at
position 0, position 1 is invalidated (`isStart` left untouched), and
the return buffer is fully determined. -/
theorem c8_getEventHandles_layout_witness :
    (getEventHandles 100 [(evB, true)] []
      [{ idx := 5, isStart := true }, { idx := 6, isStart := false }] 2).2.get? 1 =
      some { idx := -1, isStart := false } := by
  rw [c8_getEventHandles_layout 100 [(evB, true)] []
    [{ idx := 5, isStart := true }, { idx := 6, isStart := false }] 2
    (by decide) 1]
  decide

/-! ## Claim C5 -/

/-- Counterexample to C5 as stated: with `maxElements = 0` and one
matching live slot, the number of matches (1) exceeds `maxElements`
(0), yet `getEventHandles` returns `ERR_NO_HANDLES_FOUND` (the final
`handleCnt == 0` check overrides the pending partial flag), not
`ERR_PARTIAL_EVENT_HANDLES`. -/
theorem c5_zero_capacity_counterexample :
    0 < (allMatches 100 [(evB, true)] []).length ∧
    (getEventHandles 100 [(evB, true)] [] [] 0).1 = ERR_NO_HANDLES_FOUND ∧
    (getEventHandles 100 [(evB, true)] [] [] 0).1 ≠ ERR_PARTIAL_EVENT_HANDLES := by
  decide

/-- Claim C5 as amended: `getEventHandles` returns
`ERR_PARTIAL_EVENT_HANDLES` whenever `0 < maxElements` and the number of
matches exceeds `maxElements` (writing exactly the first `maxElements`
matches into `dest`); it returns `ERR_NO_HANDLES_FOUND` whenever zero
slots match, and also in the degenerate `maxElements = 0` case (where no
handle can be written, so the `handleCnt == 0` check fires even though
matches were dropped). -/
theorem c5_amended_error_results (T : Nat) (events stopEvents : List Slot)
    (dest : List event_handle_t) (maxEl : Nat) (h : maxEl ≤ dest.length) :
    ((allMatches T events stopEvents).length = 0 →
      (getEventHandles T events stopEvents dest maxEl).1 = ERR_NO_HANDLES_FOUND) ∧
    (maxEl = 0 →
      (getEventHandles T events stopEvents dest maxEl).1 = ERR_NO_HANDLES_FOUND) ∧
    (0 < maxEl → maxEl < (allMatches T events stopEvents).length →
      (getEventHandles T events stopEvents dest maxEl).1 =
        ERR_PARTIAL_EVENT_HANDLES ∧
      ∀ j, j < maxEl →
        (getEventHandles T events stopEvents dest maxEl).2.get? j =
          (allMatches T events stopEvents).get? j) := by
  refine ⟨?_, ?_, ?_⟩
  · intro hz
    rw [getEventHandles_eval]
    show (if _ then _ else _) = _
    rw [if_pos (Or.inl hz)]
  · intro hz
    rw [getEventHandles_eval]
    show (if _ then _ else _) = _
    rw [if_pos (Or.inr hz)]
  · intro hpos hover
    constructor
    · rw [getEventHandles_eval]
      show (if _ then _ else _) = _
      rw [if_neg (by omega), if_pos hover]
    · intro j hj
      rw [getEventHandles_dest_get? T events stopEvents dest maxEl h j,
        if_pos (by omega)]

/-- Witness for the amended C5 at a concrete input: two matches against
a one-element buffer yield `ERR_PARTIAL_EVENT_HANDLES` with the first
match written. -/
theorem c5_amended_error_results_witness :
    (getEventHandles 100 [(evB, true), (evB, true)] []
      [{ idx := 9, isStart := true }] 1).1 = ERR_PARTIAL_EVENT_HANDLES ∧
    (getEventHandles 100 [(evB, true), (evB, true)] []
      [{ idx := 9, isStart := true }] 1).2.get? 0 =
        some { idx := 0, isStart := true } := by
  have h := (c5_amended_error_results 100 [(evB, true), (evB, true)] []
    [{ idx := 9, isStart := true }] 1 (by decide)).2.2 (by decide) (by decide)
  refine ⟨h.1, ?_⟩
  rw [h.2 0 (by decide)]
  decide

/-! ## Claim C3 -/

/-- Claim C3 evaluation at the failing input: with a zone array of
length 2 (`irrigationPlannerNumZones = 2`) and
`irrigationZoneCfgElements = 5`, the bound check of `getZoneConfig`
passes for `idx = 3` even though `idx` is out of range of the zone
array: the function returns `ERR_OK` and performs an out-of-bounds read
(modelled as `none`) instead of returning `ERR_INVALID_ZONE_IDX`. -/
theorem c3_getZoneConfig_wrong_bound :
    (([zoneA, zoneB] : List irrigation_zone_cfg_t).length : Int) ≤ 3 ∧
    (getZoneConfig 5 [zoneA, zoneB] 3).1 = ERR_OK ∧
    (getZoneConfig 5 [zoneA, zoneB] 3).1 ≠ ERR_INVALID_ZONE_IDX ∧
    (getZoneConfig 5 [zoneA, zoneB] 3).2 = none := by
  decide

/-! ## Claim C9 -/

/-- Claim C9: while the caller-controlled config lock is held, every
`irrigConfigUpdated` call only sets the deferred-update flag (the hook
is not invoked and the update is not applied, but it is not lost); when
`setConfigLock(false)` releases the lock after `n ≥ 1` notifications,
exactly one deferred configuration update is applied — not one per
notification — invoking the registered hook exactly once; and a reload
applied with the lock free invokes the registered hook exactly once. -/
theorem c9_config_lock_defers (snap : SettingsSnapshot) (s : PlannerCfgState) :
    (s.configLock = true → irrigConfigUpdated snap s =
      { s with configUpdatedDuringLock := true }) ∧
    (s.configLock = true → ∀ n, 1 ≤ n →
      (setConfigLock snap false ((irrigConfigUpdated snap)^[n] s)).copyCalls =
        s.copyCalls + 1 ∧
      (setConfigLock snap false ((irrigConfigUpdated snap)^[n] s)).hookCalls =
        s.hookCalls + (if s.configUpdatedHook.isSome then 1 else 0)) ∧
    (s.configLock = false → ∀ hk, s.configUpdatedHook = some hk →
      (irrigConfigUpdated snap s).hookCalls = s.hookCalls + 1 ∧
      (irrigConfigUpdated snap s).copyCalls = s.copyCalls + 1 ∧
      (irrigConfigUpdated snap s).zones = snap.zones) := by
  have hdefer : s.configLock = true → irrigConfigUpdated snap s =
      { s with configUpdatedDuringLock := true } := by
    intro hl
    rw [irrigConfigUpdated, if_pos hl]
  refine ⟨hdefer, ?_, ?_⟩
  · intro hl n hn
    have hiter : ∀ m, 1 ≤ m → (irrigConfigUpdated snap)^[m] s =
        { s with configUpdatedDuringLock := true } := by
      intro m hm
      induction m with
      | zero => omega
      | succ k ih =>
        cases Nat.eq_or_lt_of_le hm with
        | inl h1 =>
          have hk : k = 0 := by omega
          subst hk
          rw [Function.iterate_one]
          exact hdefer hl
        | inr h1 =>
          rw [Function.iterate_succ_apply', ih (by omega)]
          rw [irrigConfigUpdated, if_pos hl]
    rw [hiter n hn]
    rw [setConfigLock]
    rw [if_pos ⟨rfl, rfl⟩]
    rw [irrigConfigUpdated]
    rw [if_neg (by simp)]
    cases hh : s.configUpdatedHook with
    | none => simp [copyZonesAndEvents, hh]
    | some hk => simp [copyZonesAndEvents, hh]
  · intro hl hk hhk
    rw [irrigConfigUpdated, if_neg (by rw [hl]; simp)]
    simp [copyZonesAndEvents, hhk]

/-- Witness for C9 at a concrete input: two notifications under the
lock followed by a release apply exactly one update and invoke the hook
exactly once; a reload with the lock free also invokes it once. -/
theorem c9_config_lock_defers_witness :
    irrigConfigUpdated snapA cfgLocked =
      { cfgLocked with configUpdatedDuringLock := true } ∧
    (setConfigLock snapA false
      ((irrigConfigUpdated snapA)^[2] cfgLocked)).copyCalls = 1 ∧
    (setConfigLock snapA false
      ((irrigConfigUpdated snapA)^[2] cfgLocked)).hookCalls = 1 ∧
    (irrigConfigUpdated snapA cfgFree).hookCalls = 1 := by
  have h := c9_config_lock_defers snapA cfgLocked
  have h2 := (h.2.1 (by decide) 2 (by decide))
  have h3 := (c9_config_lock_defers snapA cfgFree).2.2 (by decide) 7 (by decide)
  exact ⟨h.1 (by decide), by rw [h2.1]; rfl, by rw [h2.2]; rfl, by rw [h3.1]; rfl⟩

/-! ## Claim C10 -/

/-- Claim C10: `registerIrrigPlanUpdatedHook` accepts a null hook
pointer, returns `ERR_OK` and replaces the stored pair, which
effectively unregisters the hook: a subsequent configuration reload
(lock free) applies the new configuration but invokes no callback,
because hook invocation is guarded by a null check. -/
theorem c10_null_hook_unregisters (s : PlannerCfgState) (param : Nat)
    (snap : SettingsSnapshot) (hfree : s.configLock = false) :
    (registerIrrigPlanUpdatedHook none param s).1 = ERR_OK ∧
    (registerIrrigPlanUpdatedHook none param s).2.configUpdatedHook = none ∧
    (registerIrrigPlanUpdatedHook none param s).2.configUpdatedHookParamPtr =
      param ∧
    (irrigConfigUpdated snap
      (registerIrrigPlanUpdatedHook none param s).2).hookCalls =
      (registerIrrigPlanUpdatedHook none param s).2.hookCalls ∧
    (irrigConfigUpdated snap
      (registerIrrigPlanUpdatedHook none param s).2).copyCalls =
      (registerIrrigPlanUpdatedHook none param s).2.copyCalls + 1 ∧
    (irrigConfigUpdated snap
      (registerIrrigPlanUpdatedHook none param s).2).zones = snap.zones := by
  have hs' : (registerIrrigPlanUpdatedHook none param s).2.configLock = false :=
    hfree
  refine ⟨rfl, rfl, rfl, ?_, ?_, ?_⟩ <;>
  · rw [irrigConfigUpdated, if_neg (by simp [hs'])]
    simp [copyZonesAndEvents, registerIrrigPlanUpdatedHook]

/-- Witness for C10 at a concrete input. -/
theorem c10_null_hook_unregisters_witness :
    (registerIrrigPlanUpdatedHook none 9 cfgFree).1 = ERR_OK ∧
    (registerIrrigPlanUpdatedHook none 9 cfgFree).2.configUpdatedHook = none ∧
    (irrigConfigUpdated snapA
      (registerIrrigPlanUpdatedHook none 9 cfgFree).2).hookCalls =
      (registerIrrigPlanUpdatedHook none 9 cfgFree).2.hookCalls ∧
    (irrigConfigUpdated snapA
      (registerIrrigPlanUpdatedHook none 9 cfgFree).2).zones = snapA.zones := by
  have h := c10_null_hook_unregisters cfgFree 9 snapA (by decide)
  exact ⟨h.1, h.2.1, h.2.2.2.1, h.2.2.2.2.2⟩

end IrrigationPlanner
